import Mathlib

/-!
Shallow embedding of `mrepper/counter` (`src/main.rs`): a terminal tally
counter that persists a signed 64-bit value to a text file after every
mutation.  Machine integers are modelled as `Int` with explicit i64 range
checks; the backing file is modelled by its content (`String`) together
with a trace of file-system events performed by each operation; the
blocking keystroke reader is modelled as a function over the list of
incoming terminal events.
-/

namespace Counter

/-- `i64::MIN`. -/
def i64Min : Int := -9223372036854775808

/-- `i64::MAX`. -/
def i64Max : Int := 9223372036854775807

/-- The value is representable as an `i64`. -/
def isI64 (n : Int) : Prop := i64Min ≤ n ∧ n ≤ i64Max

instance (n : Int) : Decidable (isI64 n) :=
  inferInstanceAs (Decidable (i64Min ≤ n ∧ n ≤ i64Max))

/-- Rust `i64::checked_add`: `some` of the mathematical sum when it is
representable as an `i64`, `none` on overflow. -/
def checked_add (a b : Int) : Option Int :=
  if isI64 (a + b) then some (a + b) else none

/-- Rust `i64::checked_sub`: `some` of the mathematical difference when it is
representable as an `i64`, `none` on overflow. -/
def checked_sub (a b : Int) : Option Int :=
  if isI64 (a - b) then some (a - b) else none

/-- Fuel-driven digit accumulator: renders `n` in decimal (most significant
digit first) in front of `acc`.  Mirrors the repeated div/mod-by-10 loop of
Rust integer formatting. -/
def natDigitsAux : Nat → Nat → List Char → List Char
  | 0, _, acc => acc
  | fuel + 1, n, acc =>
    if n < 10 then Char.ofNat (48 + n) :: acc
    else natDigitsAux fuel (n / 10) (Char.ofNat (48 + n % 10) :: acc)

/-- Decimal digits of `n`, most significant first.  `n + 1` units of fuel
always suffice since the argument strictly decreases under division by 10. -/
def natDigits (n : Nat) : List Char := natDigitsAux (n + 1) n []

/-- Rust `i64::to_string`: decimal rendering, with a leading `-` for
negative values and no other characters. -/
def i64ToString (n : Int) : String :=
  if n < 0 then ⟨'-' :: natDigits n.natAbs⟩ else ⟨natDigits n.natAbs⟩

/-- Left-to-right decimal accumulation; fails on the first non-digit
character.  Mirrors the digit loop of Rust `i64::from_str`. -/
def digitsToNatAux : List Char → Nat → Option Nat
  | [], acc => some acc
  | c :: rest, acc =>
    if c.isDigit then digitsToNatAux rest (acc * 10 + (c.toNat - 48))
    else none

/-- Value of a non-empty all-digit character list; `none` otherwise. -/
def digitsToNat (cs : List Char) : Option Nat :=
  match cs with
  | [] => none
  | c :: rest => digitsToNatAux (c :: rest) 0

/-- Shared tail of Rust `i64::from_str` after the optional sign: a non-empty
run of ASCII digits whose (signed) value must be representable as an `i64`. -/
def parseDigitsSigned (cs : List Char) (neg : Bool) : Option Int :=
  match digitsToNat cs with
  | none => none
  | some n =>
    let v : Int := if neg then -(n : Int) else (n : Int)
    if isI64 v then some v else none

/-- Rust `str::parse::<i64>` (`i64::from_str`): an optional `+`/`-` sign
followed by one or more ASCII digits, value required to fit in an `i64`;
anything else fails. -/
def parseI64 (s : String) : Option Int :=
  match s.data with
  | [] => none
  | c :: rest =>
    if c = '+' then parseDigitsSigned rest false
    else if c = '-' then parseDigitsSigned rest true
    else parseDigitsSigned (c :: rest) false

/-- Rust `str::trim_end`: drop trailing whitespace characters. -/
def trimEnd (s : String) : String :=
  ⟨(s.data.reverse.dropWhile Char.isWhitespace).reverse⟩

/-- Characters of the first line of the file, up to and including the first
newline, as read by `BufRead::read_line`. -/
def takeFirstLine : List Char → List Char
  | [] => []
  | c :: rest => if c = '\n' then [c] else c :: takeFirstLine rest

/-- The first line of the file content (newline included when present). -/
def readFirstLine (s : String) : String := ⟨takeFirstLine s.data⟩

/-- File-system side effects performed on the backing file, in program
order: `persist` does seek-to-start, truncate to length 0, write of the
decimal rendering, flush, and (with `data_sync`) a synchronous data sync. -/
inductive FsEvent where
  | seekStart
  | setLen (n : Nat)
  | write (s : String)
  | flush
  | syncData
deriving DecidableEq

/-- `FileCounter`: the open backing file (modelled by its current content),
the in-memory count, and the `data_sync` flag. -/
structure FileCounter where
  content : String
  count : Int
  data_sync : Bool
deriving DecidableEq

/-- The event trace of one `FileCounter::persist` call. -/
def persistEvents (s : String) (ds : Bool) : List FsEvent :=
  [FsEvent.seekStart, FsEvent.setLen 0, FsEvent.write s, FsEvent.flush]
    ++ (if ds then [FsEvent.syncData] else [])

/-- `FileCounter::persist`: seek to the start, truncate, write the decimal
rendering of `count`, flush, optionally sync.  The resulting file content is
exactly the written string. -/
def persist (fc : FileCounter) : FileCounter × List FsEvent :=
  ({ fc with content := i64ToString fc.count },
   persistEvents (i64ToString fc.count) fc.data_sync)

/-- `FileCounter::increment`: `checked_add` one; on overflow the count is
unchanged and a transient overflow notice is printed (second component
`true`); in both cases `persist` then runs, producing the returned trace. -/
def increment (fc : FileCounter) : FileCounter × Bool × List FsEvent :=
  match checked_add fc.count 1 with
  | none =>
    let r := persist fc
    (r.1, true, r.2)
  | some val =>
    let r := persist { fc with count := val }
    (r.1, false, r.2)

/-- `FileCounter::decrement`: `checked_sub` one; on underflow the count is
unchanged and a transient underflow notice is printed (second component
`true`); in both cases `persist` then runs, producing the returned trace. -/
def decrement (fc : FileCounter) : FileCounter × Bool × List FsEvent :=
  match checked_sub fc.count 1 with
  | none =>
    let r := persist fc
    (r.1, true, r.2)
  | some val =>
    let r := persist { fc with count := val }
    (r.1, false, r.2)

/-- The crossterm key codes the program distinguishes; `other` stands for
any further key code. -/
inductive KeyCode where
  | charOf (c : Char)
  | Backspace
  | Enter
  | Esc
  | other (n : Nat)
deriving DecidableEq

/-- Crossterm key modifiers (as bit flags; only CONTROL is used). -/
structure KeyModifiers where
  control : Bool
  shift : Bool
  alt : Bool
deriving DecidableEq

/-- `KeyModifiers::empty()`. -/
def KeyModifiers.empty : KeyModifiers := ⟨false, false, false⟩

/-- `KeyModifiers::CONTROL`. -/
def KeyModifiers.CONTROL : KeyModifiers := ⟨true, false, false⟩

/-- A crossterm `KeyEvent`: a key code plus modifiers. -/
structure KeyEvent where
  code : KeyCode
  modifiers : KeyModifiers
deriving DecidableEq

/-- Helper `keycode`: a `KeyEvent` with no modifiers. -/
def keycode (c : KeyCode) : KeyEvent := ⟨c, KeyModifiers.empty⟩

/-- Helper `key`: a `KeyEvent` for a plain character. -/
def key (c : Char) : KeyEvent := keycode (KeyCode.charOf c)

/-- A terminal event as returned by `event::read()`: a key event or any
other (mouse, resize, focus, …) event. -/
inductive Event where
  | Key (k : KeyEvent)
  | other (n : Nat)
deriving DecidableEq

/-- `HashMap::get` on the choice map (keys are unique in the maps the
program builds, so first match is the match). -/
def choiceMapGet {T : Type} (m : List (KeyEvent × T)) (k : KeyEvent) : Option T :=
  match m with
  | [] => none
  | (k2, v) :: rest => if k2 = k then some v else choiceMapGet rest k

/-- `get_character_choice`: re-render the prompt, block on the next terminal
event, and return the mapped value of the first key event found in the
choice map; all other events are ignored and the loop re-renders and waits
again.  The incoming event stream is the argument list; `none` models the
call still blocking after every listed event arrived. -/
def get_character_choice {T : Type} (prompt : String)
    (choice_map : List (KeyEvent × T)) : List Event → Option T
  | [] => none
  | Event.Key key_event :: rest =>
    match choiceMapGet choice_map key_event with
    | some val => some val
    | none => get_character_choice prompt choice_map rest
  | Event.other _ :: rest => get_character_choice prompt choice_map rest

/-- The prompt shown by `user_ok_with_overwrite`. -/
def overwritePrompt : String :=
  "File contains non-counter data. Use anyway? (data will be lost!)  [y/n]"

/-- The key-to-character choice map of `user_ok_with_overwrite`. -/
def overwriteChoiceMap : List (KeyEvent × Char) :=
  [(key 'y', 'y'), (key 'Y', 'y'),
   (key 'n', 'n'), (key 'N', 'n'),
   (key 'q', 'q'), (key 'Q', 'q'),
   (⟨KeyCode.charOf 'c', KeyModifiers.CONTROL⟩, 'q')]

/-- The key-to-character choice map of the main interaction loop. -/
def mainChoiceMap : List (KeyEvent × Char) :=
  [(key '+', '+'), (key '=', '+'), (key ' ', '+'),
   (key '-', '-'), (key '_', '-'), (keycode KeyCode.Backspace, '-'),
   (key 'q', 'q'), (key 'Q', 'q'),
   (⟨KeyCode.charOf 'c', KeyModifiers.CONTROL⟩, 'q')]

/-- Outcome of `user_ok_with_overwrite`: `Ok(true)` / `Ok(false)`,
`process::exit(1)`, the unreachable panic arm, or still blocked on input. -/
inductive PromptOutcome where
  | ok (b : Bool)
  | exitProcess (code : Nat)
  | panicked
  | blocked
deriving DecidableEq

/-- `user_ok_with_overwrite`: run `get_character_choice` on the y/n/q map
and translate the accepted character. -/
def user_ok_with_overwrite (evs : List Event) : PromptOutcome :=
  match get_character_choice overwritePrompt overwriteChoiceMap evs with
  | none => PromptOutcome.blocked
  | some c =>
    if c = 'y' then PromptOutcome.ok true
    else if c = 'n' then PromptOutcome.ok false
    else if c = 'q' then PromptOutcome.exitProcess 1
    else PromptOutcome.panicked

/-- Result of `FileCounter::new`: success, the `InvalidData` error (carrying
the untouched file content), `process::exit` from the prompt (carrying the
untouched file content), the unreachable panic arm, or blocked on input. -/
inductive InitResult where
  | ok (fc : FileCounter)
  | invalidData (content : String)
  | exitProcess (code : Nat) (content : String)
  | panicked (content : String)
  | blocked (content : String)
deriving DecidableEq

/-- Everything observable about one `FileCounter::new` call: its result,
whether the recovery prompt was invoked, and the file events performed. -/
structure NewOutcome where
  result : InitResult
  prompted : Bool
  events : List FsEvent
deriving DecidableEq

/-- `FileCounter::new`: open (without truncating), pick the initial count —
the explicit `value` argument if given, else the first line of the file when
it parses as an `i64` after trimming trailing whitespace, else (after the
recovery prompt when that line is non-empty) 0 — then persist and return.
`evs` is the terminal event stream consumed if the prompt runs. -/
def FileCounter.new (content : String) (value : Option Int) (data_sync : Bool)
    (evs : List Event) : NewOutcome :=
  match value with
  | some v =>
    let r := persist ⟨content, v, data_sync⟩
    ⟨InitResult.ok r.1, false, r.2⟩
  | none =>
    let line := readFirstLine content
    match parseI64 (trimEnd line) with
    | some v =>
      let r := persist ⟨content, v, data_sync⟩
      ⟨InitResult.ok r.1, false, r.2⟩
    | none =>
      if line = "" then
        let r := persist ⟨content, 0, data_sync⟩
        ⟨InitResult.ok r.1, false, r.2⟩
      else
        match user_ok_with_overwrite evs with
        | PromptOutcome.ok true =>
          let r := persist ⟨content, 0, data_sync⟩
          ⟨InitResult.ok r.1, true, r.2⟩
        | PromptOutcome.ok false => ⟨InitResult.invalidData content, true, []⟩
        | PromptOutcome.exitProcess c => ⟨InitResult.exitProcess c content, true, []⟩
        | PromptOutcome.panicked => ⟨InitResult.panicked content, true, []⟩
        | PromptOutcome.blocked => ⟨InitResult.blocked content, true, []⟩

/-- The two mutating operations the main loop can apply. -/
inductive Op where
  | inc
  | dec
deriving DecidableEq

/-- Apply one operation (state, notice flag, file events). -/
def applyOp (fc : FileCounter) : Op → FileCounter × Bool × List FsEvent
  | Op.inc => increment fc
  | Op.dec => decrement fc

/-- Run a sequence of operations, keeping only the state. -/
def runOps (fc : FileCounter) : List Op → FileCounter
  | [] => fc
  | op :: rest => runOps (applyOp fc op).1 rest

/-- The checked arithmetic of this operation succeeds from this state. -/
def opOk (fc : FileCounter) : Op → Bool
  | Op.inc => (checked_add fc.count 1).isSome
  | Op.dec => (checked_sub fc.count 1).isSome

/-- No operation of the run overflows or underflows. -/
def noOverflowRun : FileCounter → List Op → Bool
  | _, [] => true
  | fc, op :: rest => opOk fc op && noOverflowRun (applyOp fc op).1 rest

/-- Initial-value precedence exactly as the specification words it:
explicit value, else parsed first line, else 0. -/
def specInitialValue (content : String) (value : Option Int) : Int :=
  match value with
  | some v => v
  | none =>
    match parseI64 (trimEnd (readFirstLine content)) with
    | some w => w
    | none => 0

/-- Unfolding lemma: `natDigitsAux` at fuel zero. -/
theorem natDigitsAux_zero (n : Nat) (acc : List Char) :
    natDigitsAux 0 n acc = acc := rfl

/-- Unfolding lemma: `natDigitsAux` at successor fuel. -/
theorem natDigitsAux_succ (fuel n : Nat) (acc : List Char) :
    natDigitsAux (fuel + 1) n acc =
      if n < 10 then Char.ofNat (48 + n) :: acc
      else natDigitsAux fuel (n / 10) (Char.ofNat (48 + n % 10) :: acc) := rfl

/-- The characters produced for a single decimal digit are ASCII digits,
not whitespace, not a sign, and decode back to the digit. -/
theorem digitCharFacts (m : Nat) (h : m < 10) :
    (Char.ofNat (48 + m)).isDigit = true ∧
    (Char.ofNat (48 + m)).isWhitespace = false ∧
    Char.ofNat (48 + m) ≠ '+' ∧
    Char.ofNat (48 + m) ≠ '-' ∧
    (Char.ofNat (48 + m)).toNat = 48 + m := by
  interval_cases m <;> decide

/-- With positive fuel the digit renderer emits at least one character. -/
theorem natDigitsAux_ne_nil (fuel : Nat) : ∀ (n : Nat) (acc : List Char),
    natDigitsAux (fuel + 1) n acc ≠ [] := by
  induction fuel with
  | zero =>
    intro n acc
    rw [natDigitsAux_succ]
    by_cases h : n < 10
    · rw [if_pos h]; simp
    · rw [if_neg h, natDigitsAux_zero]; simp
  | succ f ih =>
    intro n acc
    rw [natDigitsAux_succ]
    by_cases h : n < 10
    · rw [if_pos h]; simp
    · rw [if_neg h]; exact ih _ _

/-- Every character emitted by the digit renderer is either from the
accumulator or a single-decimal-digit character. -/
theorem natDigitsAux_mem (fuel : Nat) : ∀ (n : Nat) (acc : List Char) (c : Char),
    c ∈ natDigitsAux fuel n acc →
    c ∈ acc ∨ ∃ m, m < 10 ∧ c = Char.ofNat (48 + m) := by
  induction fuel with
  | zero =>
    intro n acc c hc
    rw [natDigitsAux_zero] at hc
    exact Or.inl hc
  | succ f ih =>
    intro n acc c hc
    rw [natDigitsAux_succ] at hc
    by_cases h : n < 10
    · rw [if_pos h] at hc
      rcases List.mem_cons.mp hc with h1 | h1
      · exact Or.inr ⟨n, h, h1⟩
      · exact Or.inl h1
    · rw [if_neg h] at hc
      rcases ih _ _ _ hc with h1 | h1
      · rcases List.mem_cons.mp h1 with h2 | h2
        · exact Or.inr ⟨n % 10, Nat.mod_lt _ (by omega), h2⟩
        · exact Or.inl h2
      · exact Or.inr h1

/-- Accumulating the rendered digits of `n` on top of a partial value `k`
yields `k` shifted by the number of emitted digits, plus `n`. -/
theorem digitsToNatAux_natDigitsAux (fuel : Nat) :
    ∀ (n : Nat) (acc : List Char) (k : Nat), n < fuel →
    ∃ p, digitsToNatAux (natDigitsAux fuel n acc) k = digitsToNatAux acc (k * p + n) := by
  induction fuel with
  | zero => intro n acc k h; omega
  | succ f ih =>
    intro n acc k h
    rw [natDigitsAux_succ]
    by_cases h10 : n < 10
    · rw [if_pos h10]
      refine ⟨10, ?_⟩
      obtain ⟨hd, _, _, _, ht⟩ := digitCharFacts n h10
      simp only [digitsToNatAux, hd, if_pos, ht]
      congr 1
      omega
    · rw [if_neg h10]
      have hlt : n / 10 < f := by
        have := Nat.div_lt_self (by omega : 0 < n) (by omega : 1 < 10)
        omega
      obtain ⟨p, hp⟩ := ih (n / 10) (Char.ofNat (48 + n % 10) :: acc) k hlt
      refine ⟨p * 10, ?_⟩
      rw [hp]
      obtain ⟨hd, _, _, _, ht⟩ := digitCharFacts (n % 10) (Nat.mod_lt _ (by omega))
      simp only [digitsToNatAux, hd, if_pos, ht]
      congr 1
      have hmul : k * (p * 10) = k * p * 10 := by ring
      omega

/-- The decimal digits of `n` decode back to `n`. -/
theorem digitsToNat_natDigits (n : Nat) : digitsToNat (natDigits n) = some n := by
  obtain ⟨p, hp⟩ := digitsToNatAux_natDigitsAux (n + 1) n [] 0 (by omega)
  have hne := natDigitsAux_ne_nil n n []
  unfold natDigits
  cases hcs : natDigitsAux (n + 1) n [] with
  | nil => exact absurd hcs hne
  | cons c rest =>
    have hval : digitsToNatAux (c :: rest) 0 = some n := by
      rw [← hcs, hp]
      simp [digitsToNatAux]
    simpa [digitsToNat] using hval

/-- Unfolding lemma: `parseI64` on an explicit cons-cell string. -/
theorem parseI64_mk (c : Char) (rest : List Char) :
    parseI64 ⟨c :: rest⟩ =
      (if c = '+' then parseDigitsSigned rest false
       else if c = '-' then parseDigitsSigned rest true
       else parseDigitsSigned (c :: rest) false) := rfl

/-- `trimEnd` is the identity on strings with no whitespace characters. -/
theorem trimEnd_of_no_ws (l : List Char)
    (h : ∀ c ∈ l, c.isWhitespace = false) : trimEnd ⟨l⟩ = ⟨l⟩ := by
  unfold trimEnd
  apply congrArg String.mk
  show (List.dropWhile Char.isWhitespace l.reverse).reverse = l
  cases hrev : l.reverse with
  | nil =>
    rw [List.reverse_eq_nil_iff.mp hrev]
    simp
  | cons c rest =>
    have hc : c ∈ l := by
      rw [← List.mem_reverse, hrev]
      exact List.mem_cons_self _ _
    rw [List.dropWhile_cons, h c hc]
    simp only [Bool.false_eq_true, if_false]
    rw [← hrev, List.reverse_reverse]

/-- No character of the decimal rendering is whitespace. -/
theorem i64ToString_no_ws (v : Int) :
    ∀ c ∈ (i64ToString v).data, c.isWhitespace = false := by
  intro c hc
  unfold i64ToString at hc
  by_cases hv : v < 0
  · rw [if_pos hv] at hc
    have hc2 : c ∈ '-' :: natDigits v.natAbs := hc
    rcases List.mem_cons.mp hc2 with h1 | h1
    · subst h1; decide
    · rcases natDigitsAux_mem _ _ _ _ h1 with h2 | ⟨m, hm, hcm⟩
      · simp at h2
      · subst hcm; exact (digitCharFacts m hm).2.1
  · rw [if_neg hv] at hc
    have hc2 : c ∈ natDigits v.natAbs := hc
    rcases natDigitsAux_mem _ _ _ _ hc2 with h2 | ⟨m, hm, hcm⟩
    · simp at h2
    · subst hcm; exact (digitCharFacts m hm).2.1

/-- `trimEnd` leaves the decimal rendering unchanged. -/
theorem trimEnd_i64ToString (v : Int) :
    trimEnd (i64ToString v) = i64ToString v :=
  trimEnd_of_no_ws (i64ToString v).data (i64ToString_no_ws v)

/-- Rust round trip: parsing the decimal rendering of an in-range value
gives back exactly that value. -/
theorem parseI64_i64ToString (v : Int) (h : isI64 v) :
    parseI64 (i64ToString v) = some v := by
  by_cases hv : v < 0
  · have hgoal : parseI64 ⟨'-' :: natDigits v.natAbs⟩ = some v := by
      rw [parseI64_mk]
      rw [if_neg (by decide : ¬('-' = '+')), if_pos rfl]
      have hdn := digitsToNat_natDigits v.natAbs
      have ha : -((v.natAbs : Int)) = v := by omega
      simp [parseDigitsSigned, hdn, ha, h]
      rw [abs_of_neg hv, neg_neg]
      exact ⟨h, rfl⟩
    rw [i64ToString, if_pos hv]
    exact hgoal
  · rw [i64ToString, if_neg hv]
    have hne := natDigitsAux_ne_nil v.natAbs v.natAbs []
    cases hcs : natDigits v.natAbs with
    | nil => exact absurd hcs hne
    | cons c rest =>
      have hcmem : c ∈ natDigits v.natAbs := by
        rw [hcs]; exact List.mem_cons_self _ _
      have hcd : c ≠ '+' ∧ c ≠ '-' := by
        rcases natDigitsAux_mem _ _ _ _ hcmem with h2 | ⟨m, hm, hcm⟩
        · simp at h2
        · subst hcm
          exact ⟨(digitCharFacts m hm).2.2.1, (digitCharFacts m hm).2.2.2.1⟩
      rw [parseI64_mk, if_neg hcd.1, if_neg hcd.2]
      have hdn := digitsToNat_natDigits v.natAbs
      rw [hcs] at hdn
      have ha : ((v.natAbs : Int)) = v := by omega
      simp [parseDigitsSigned, hdn, ha, h]

/-- Parsing the trimmed decimal rendering of an in-range value gives back
exactly that value. -/
theorem parse_trimEnd_i64ToString (v : Int) (h : isI64 v) :
    parseI64 (trimEnd (i64ToString v)) = some v := by
  rw [trimEnd_i64ToString]
  exact parseI64_i64ToString v h

/-- A successful `checked_add` result is in `i64` range. -/
theorem checked_add_isI64 (a b r : Int) (h : checked_add a b = some r) : isI64 r := by
  unfold checked_add at h
  by_cases hi : isI64 (a + b)
  · rw [if_pos hi] at h
    obtain rfl := Option.some.inj h
    exact hi
  · rw [if_neg hi] at h
    exact absurd h (by simp)

/-- A successful `checked_sub` result is in `i64` range. -/
theorem checked_sub_isI64 (a b r : Int) (h : checked_sub a b = some r) : isI64 r := by
  unfold checked_sub at h
  by_cases hi : isI64 (a - b)
  · rw [if_pos hi] at h
    obtain rfl := Option.some.inj h
    exact hi
  · rw [if_neg hi] at h
    exact absurd h (by simp)

/-- After any increment or decrement (overflowing or not), the file content
is the decimal rendering of the resulting count: `persist` always runs. -/
theorem applyOp_content (fc : FileCounter) (op : Op) :
    (applyOp fc op).1.content = i64ToString (applyOp fc op).1.count := by
  cases op with
  | inc =>
    cases hca : checked_add fc.count 1 with
    | none => simp [applyOp, increment, hca, persist]
    | some val => simp [applyOp, increment, hca, persist]
  | dec =>
    cases hca : checked_sub fc.count 1 with
    | none => simp [applyOp, decrement, hca, persist]
    | some val => simp [applyOp, decrement, hca, persist]

/-- A non-overflowing operation leaves the count in `i64` range. -/
theorem applyOp_isI64 (fc : FileCounter) (op : Op) (h : opOk fc op = true) :
    isI64 (applyOp fc op).1.count := by
  cases op with
  | inc =>
    cases hca : checked_add fc.count 1 with
    | none => rw [opOk, hca] at h; simp at h
    | some val =>
      have := checked_add_isI64 fc.count 1 val hca
      simp [applyOp, increment, hca, persist]
      exact this
  | dec =>
    cases hca : checked_sub fc.count 1 with
    | none => rw [opOk, hca] at h; simp at h
    | some val =>
      have := checked_sub_isI64 fc.count 1 val hca
      simp [applyOp, decrement, hca, persist]
      exact this

/-- After every non-empty prefix of a non-overflowing run, the count is in
range and the file content is its decimal rendering. -/
theorem good_after_take : ∀ (ops : List Op) (fc : FileCounter) (k : Nat),
    noOverflowRun fc ops = true → 1 ≤ k → k ≤ ops.length →
    isI64 (runOps fc (ops.take k)).count ∧
      (runOps fc (ops.take k)).content = i64ToString (runOps fc (ops.take k)).count := by
  intro ops
  induction ops with
  | nil =>
    intro fc k _ h1 h2
    simp at h2
    omega
  | cons op rest ih =>
    intro fc k hno h1 h2
    obtain ⟨hop, hrest⟩ : opOk fc op = true ∧ noOverflowRun (applyOp fc op).1 rest = true := by
      simpa [noOverflowRun, Bool.and_eq_true] using hno
    cases k with
    | zero => omega
    | succ j =>
      rw [List.take_succ_cons]
      cases j with
      | zero =>
        simp only [List.take_zero, runOps]
        exact ⟨applyOp_isI64 fc op hop, applyOp_content fc op⟩
      | succ j2 =>
        simp only [runOps]
        exact ih (applyOp fc op).1 (j2 + 1) hrest (by omega) (by simp at h2; omega)

/-- C1: for every sequence of increment and decrement operations in which no
operation overflows or underflows, after each operation the content of the
backing file parses back (as a signed 64-bit decimal integer, trailing
whitespace trimmed) to exactly the in-memory counter value. -/
theorem roundtrip_after_each_op (fc : FileCounter) (ops : List Op)
    (h : noOverflowRun fc ops = true) (i : Nat) (hi : i < ops.length) :
    parseI64 (trimEnd (runOps fc (ops.take (i + 1))).content)
      = some (runOps fc (ops.take (i + 1))).count := by
  obtain ⟨hgood, hinv⟩ := good_after_take ops fc (i + 1) h (by omega) (by omega)
  rw [hinv]
  exact parse_trimEnd_i64ToString _ hgood

/-- C1 witness: a concrete non-overflowing run satisfies the round-trip law
after its third operation. -/
theorem roundtrip_after_each_op_witness :
    noOverflowRun ⟨"0", 0, true⟩ [Op.inc, Op.inc, Op.dec] = true ∧
    2 < [Op.inc, Op.inc, Op.dec].length ∧
    parseI64 (trimEnd (runOps ⟨"0", 0, true⟩ ([Op.inc, Op.inc, Op.dec].take (2 + 1))).content)
      = some (runOps ⟨"0", 0, true⟩ ([Op.inc, Op.inc, Op.dec].take (2 + 1))).count :=
  ⟨by decide, by decide,
    roundtrip_after_each_op ⟨"0", 0, true⟩ [Op.inc, Op.inc, Op.dec] (by decide) 2 (by decide)⟩

/-- C2: immediately after any successful mutating operation (persist, and
hence increment or decrement) the on-disk content is exactly the decimal
ASCII rendering of the current counter value and nothing else. -/
theorem persisted_content_exact (fc : FileCounter) :
    (persist fc).1.content = i64ToString (persist fc).1.count ∧
    (increment fc).1.content = i64ToString (increment fc).1.count ∧
    (decrement fc).1.content = i64ToString (decrement fc).1.count := by
  refine ⟨rfl, ?_, ?_⟩
  · have h := applyOp_content fc Op.inc
    simpa [applyOp] using h
  · have h := applyOp_content fc Op.dec
    simpa [applyOp] using h

/-- Every successful `FileCounter::new` outcome is the persist of the
spec-precedence initial value, and its events are the persist trace. -/
theorem new_ok_cases (content : String) (value : Option Int) (ds : Bool)
    (evs : List Event) (fc : FileCounter)
    (h : (FileCounter.new content value ds evs).result = InitResult.ok fc) :
    fc = (persist ⟨content, specInitialValue content value, ds⟩).1 ∧
    (FileCounter.new content value ds evs).events =
      (persist ⟨content, specInitialValue content value, ds⟩).2 := by
  cases value with
  | some v =>
    simp only [FileCounter.new, NewOutcome.result, InitResult.ok.injEq] at h
    subst h
    exact ⟨rfl, rfl⟩
  | none =>
    cases hp : parseI64 (trimEnd (readFirstLine content)) with
    | some w =>
      simp only [FileCounter.new, hp, NewOutcome.result, InitResult.ok.injEq] at h
      subst h
      simp [specInitialValue, hp, FileCounter.new]
    | none =>
      by_cases hline : readFirstLine content = ""
      · simp only [FileCounter.new, hp, if_pos hline, NewOutcome.result,
          InitResult.ok.injEq] at h
        subst h
        simp only [FileCounter.new, hp, if_pos hline, specInitialValue, NewOutcome.events]
        constructor <;> trivial
      · cases huser : user_ok_with_overwrite evs with
        | ok b =>
          cases b with
          | true =>
            simp only [FileCounter.new, hp, if_neg hline, huser, NewOutcome.result,
              InitResult.ok.injEq] at h
            subst h
            simp [specInitialValue, hp, FileCounter.new, hline, huser]
          | false =>
            simp only [FileCounter.new, hp, if_neg hline, huser, NewOutcome.result] at h
            exact absurd h (by simp)
        | exitProcess c =>
          simp only [FileCounter.new, hp, if_neg hline, huser, NewOutcome.result] at h
          exact absurd h (by simp)
        | panicked =>
          simp only [FileCounter.new, hp, if_neg hline, huser, NewOutcome.result] at h
          exact absurd h (by simp)
        | blocked =>
          simp only [FileCounter.new, hp, if_neg hline, huser, NewOutcome.result] at h
          exact absurd h (by simp)

/-- C3: initialization chooses the initial counter value with the
precedence explicit argument > parsed first line (trailing whitespace
trimmed) > 0; an explicit start value overrides any pre-existing file
content and involves no prompting. -/
theorem new_value_precedence (content : String) (value : Option Int) (ds : Bool)
    (evs : List Event) (fc : FileCounter)
    (h : (FileCounter.new content value ds evs).result = InitResult.ok fc) :
    fc.count = specInitialValue content value ∧
      (value.isSome = true → (FileCounter.new content value ds evs).prompted = false) := by
  obtain ⟨hfc, _⟩ := new_ok_cases content value ds evs fc h
  constructor
  · rw [hfc]
    rfl
  · intro hs
    cases value with
    | some v => rfl
    | none => simp at hs

/-- C3 witness: with no explicit value, content `"42\n"` initializes to 42,
matching the spec precedence. -/
theorem new_value_precedence_witness :
    (FileCounter.new "42\n" none true []).result = InitResult.ok ⟨"42", 42, true⟩ ∧
    (⟨"42", 42, true⟩ : FileCounter).count = specInitialValue "42\n" none :=
  ⟨by decide, (new_value_precedence "42\n" none true [] ⟨"42", 42, true⟩ (by decide)).1⟩

/-- C6: with unparseable non-empty file content, no explicit start value,
and the user answering "no" at the recovery prompt, initialization fails
with the invalid-data error and performs no file write: the content is left
exactly as it was. -/
theorem new_invalid_no_aborts (content : String) (ds : Bool) (evs : List Event)
    (h1 : parseI64 (trimEnd (readFirstLine content)) = none)
    (h2 : readFirstLine content ≠ "")
    (h3 : get_character_choice overwritePrompt overwriteChoiceMap evs = some 'n') :
    (FileCounter.new content none ds evs).result = InitResult.invalidData content ∧
    (FileCounter.new content none ds evs).events = [] := by
  have huser : user_ok_with_overwrite evs = PromptOutcome.ok false := by
    simp [user_ok_with_overwrite, h3]
  simp [FileCounter.new, h1, if_neg h2, huser]

/-- C6 witness: content `"not-a-number"` with the n key pressed. -/
theorem new_invalid_no_aborts_witness :
    parseI64 (trimEnd (readFirstLine "not-a-number")) = none ∧
    readFirstLine "not-a-number" ≠ "" ∧
    get_character_choice overwritePrompt overwriteChoiceMap [Event.Key (key 'n')] = some 'n' ∧
    (FileCounter.new "not-a-number" none true [Event.Key (key 'n')]).result
      = InitResult.invalidData "not-a-number" ∧
    (FileCounter.new "not-a-number" none true [Event.Key (key 'n')]).events = [] := by
  refine ⟨by decide, by decide, by decide, ?_⟩
  exact new_invalid_no_aborts "not-a-number" true [Event.Key (key 'n')]
    (by decide) (by decide) (by decide)

/-- C7: the recovery prompt is invoked if and only if no explicit starting
value was given, the first line read is non-empty, and it fails signed
integer parsing after trimming trailing whitespace. -/
theorem prompt_iff (content : String) (value : Option Int) (ds : Bool) (evs : List Event) :
    (FileCounter.new content value ds evs).prompted = true ↔
      (value = none ∧ readFirstLine content ≠ "" ∧
        parseI64 (trimEnd (readFirstLine content)) = none) := by
  cases value with
  | some v => simp [FileCounter.new]
  | none =>
    cases hp : parseI64 (trimEnd (readFirstLine content)) with
    | some w => simp [FileCounter.new, hp]
    | none =>
      by_cases hline : readFirstLine content = ""
      · simp only [FileCounter.new, hp, if_pos hline, NewOutcome.prompted]
        simp [hline]
      · cases huser : user_ok_with_overwrite evs with
        | ok b => cases b <;> simp [FileCounter.new, hp, hline, huser]
        | exitProcess c => simp [FileCounter.new, hp, hline, huser]
        | panicked => simp [FileCounter.new, hp, hline, huser]
        | blocked => simp [FileCounter.new, hp, hline, huser]

/-- C9: choosing the quit option at the recovery prompt terminates the
process with exit status 1 (non-zero), without initializing the counter and
without writing to the file. -/
theorem quit_at_prompt (content : String) (ds : Bool) (evs : List Event)
    (h1 : parseI64 (trimEnd (readFirstLine content)) = none)
    (h2 : readFirstLine content ≠ "")
    (h3 : get_character_choice overwritePrompt overwriteChoiceMap evs = some 'q') :
    (FileCounter.new content none ds evs).result = InitResult.exitProcess 1 content ∧
    (FileCounter.new content none ds evs).events = [] ∧
    ∀ fc, (FileCounter.new content none ds evs).result ≠ InitResult.ok fc := by
  have huser : user_ok_with_overwrite evs = PromptOutcome.exitProcess 1 := by
    simp [user_ok_with_overwrite, h3]
  simp [FileCounter.new, h1, if_neg h2, huser]

/-- C9 witness: content `"not-a-number"` with the q key pressed. -/
theorem quit_at_prompt_witness :
    parseI64 (trimEnd (readFirstLine "not-a-number")) = none ∧
    readFirstLine "not-a-number" ≠ "" ∧
    get_character_choice overwritePrompt overwriteChoiceMap [Event.Key (key 'q')] = some 'q' ∧
    (FileCounter.new "not-a-number" none true [Event.Key (key 'q')]).result
      = InitResult.exitProcess 1 "not-a-number" := by
  refine ⟨by decide, by decide, by decide, ?_⟩
  exact (quit_at_prompt "not-a-number" true [Event.Key (key 'q')]
    (by decide) (by decide) (by decide)).1

/-- C10: every successful initialization persists the chosen initial value
before returning: the file content becomes exactly the decimal rendering of
the initial value (destroying any other pre-existing content), and the
persist write event occurs during initialization. -/
theorem new_persists_initial (content : String) (value : Option Int) (ds : Bool)
    (evs : List Event) (fc : FileCounter)
    (h : (FileCounter.new content value ds evs).result = InitResult.ok fc) :
    fc.content = i64ToString fc.count ∧
    FsEvent.write (i64ToString fc.count) ∈ (FileCounter.new content value ds evs).events := by
  obtain ⟨hfc, hev⟩ := new_ok_cases content value ds evs fc h
  subst hfc
  refine ⟨rfl, ?_⟩
  rw [hev]
  simp [persist, persistEvents]

/-- C10 witness: initializing with an explicit value 5 over content
`"42\nextra"` rewrites the file to `"5"` and performs the write. -/
theorem new_persists_initial_witness :
    (FileCounter.new "42\nextra" (some 5) true []).result = InitResult.ok ⟨"5", 5, true⟩ ∧
    (⟨"5", 5, true⟩ : FileCounter).content = i64ToString (⟨"5", 5, true⟩ : FileCounter).count ∧
    FsEvent.write (i64ToString (⟨"5", 5, true⟩ : FileCounter).count)
      ∈ (FileCounter.new "42\nextra" (some 5) true []).events :=
  ⟨by decide, new_persists_initial "42\nextra" (some 5) true [] ⟨"5", 5, true⟩ (by decide)⟩

/-- At `i64::MAX` the checked increment overflows. -/
theorem checked_add_max_none : checked_add i64Max 1 = none := by
  unfold checked_add isI64 i64Min i64Max
  rw [if_neg (by omega)]

/-- C4 counterexample: with the counter at `i64::MAX`, increment does NOT
skip persist for that tick — the persist write of the (unchanged) value
still occurs, so the event trace is non-empty and contains the write. -/
theorem increment_at_max_persist_not_skipped :
    (increment ⟨"9223372036854775807", 9223372036854775807, false⟩).2.2 ≠ [] ∧
    FsEvent.write "9223372036854775807"
      ∈ (increment ⟨"9223372036854775807", 9223372036854775807, false⟩).2.2 := by
  decide

/-- C4 (amended): when increment is applied at `i64::MAX`, the value is left
unchanged and the overflow notice is emitted; persist still runs for that
tick, but it rewrites the same decimal rendering, so the file content is
identical to its prior state whenever the prior content was the rendering of
the value. -/
theorem increment_at_max (fc : FileCounter) (hmax : fc.count = i64Max)
    (hinv : fc.content = i64ToString fc.count) :
    (increment fc).1.count = fc.count ∧
    (increment fc).2.1 = true ∧
    (increment fc).1.content = fc.content ∧
    (increment fc).2.2 ≠ [] := by
  have hover : checked_add fc.count 1 = none := by
    rw [hmax]
    exact checked_add_max_none
  refine ⟨?_, ?_, ?_, ?_⟩ <;>
    simp [increment, hover, persist, persistEvents, hinv]

/-- C4 witness: the amended statement at the concrete maximum. -/
theorem increment_at_max_witness :
    (⟨"9223372036854775807", 9223372036854775807, true⟩ : FileCounter).count = i64Max ∧
    (⟨"9223372036854775807", 9223372036854775807, true⟩ : FileCounter).content
      = i64ToString (⟨"9223372036854775807", 9223372036854775807, true⟩ : FileCounter).count ∧
    (increment ⟨"9223372036854775807", 9223372036854775807, true⟩).1.count
      = (⟨"9223372036854775807", 9223372036854775807, true⟩ : FileCounter).count ∧
    (increment ⟨"9223372036854775807", 9223372036854775807, true⟩).2.1 = true ∧
    (increment ⟨"9223372036854775807", 9223372036854775807, true⟩).1.content
      = (⟨"9223372036854775807", 9223372036854775807, true⟩ : FileCounter).content :=
  ⟨by decide, by decide,
    (increment_at_max ⟨"9223372036854775807", 9223372036854775807, true⟩
      (by decide) (by decide)).1,
    (increment_at_max ⟨"9223372036854775807", 9223372036854775807, true⟩
      (by decide) (by decide)).2.1,
    (increment_at_max ⟨"9223372036854775807", 9223372036854775807, true⟩
      (by decide) (by decide)).2.2.1⟩

/-- C5: decrement uses checked signed 64-bit subtraction: from 0 it
succeeds, yielding -1 persisted as the text `"-1"`; and it leaves the value
unchanged (with the underflow notice) exactly when the value is
`i64::MIN`. -/
theorem decrement_checked (fc : FileCounter) (h : isI64 fc.count) :
    (fc.count = 0 →
      (decrement fc).1.count = -1 ∧
      (decrement fc).1.content = "-1" ∧
      (decrement fc).2.1 = false) ∧
    ((decrement fc).2.1 = true ↔ fc.count = i64Min) ∧
    (fc.count = i64Min → (decrement fc).1.count = fc.count) := by
  by_cases hmin : fc.count = i64Min
  · have hunder : checked_sub fc.count 1 = none := by
      rw [hmin]
      unfold checked_sub isI64 i64Min i64Max
      rw [if_neg (by omega)]
    have hcount : (decrement fc).1.count = fc.count := by
      simp [decrement, hunder, persist]
    have hflag : (decrement fc).2.1 = true := by
      simp [decrement, hunder]
    refine ⟨?_, ?_, ?_⟩
    · intro h0
      rw [h0] at hmin
      unfold i64Min at hmin
      omega
    · simp [hflag, hmin]
    · intro _
      exact hcount
  · have hok : checked_sub fc.count 1 = some (fc.count - 1) := by
      unfold checked_sub
      rw [if_pos]
      unfold isI64 i64Min i64Max at h ⊢
      unfold i64Min at hmin
      omega
    have hcount : (decrement fc).1.count = fc.count - 1 := by
      simp [decrement, hok, persist]
    have hcontent : (decrement fc).1.content = i64ToString (fc.count - 1) := by
      simp [decrement, hok, persist]
    have hflag : (decrement fc).2.1 = false := by
      simp [decrement, hok]
    refine ⟨?_, ?_, ?_⟩
    · intro h0
      refine ⟨?_, ?_, ?_⟩
      · rw [hcount, h0]
        decide
      · rw [hcontent, show fc.count - 1 = -1 by omega]
        decide
      · exact hflag
    · simp [hflag, hmin]
    · intro hcontra
      exact absurd hcontra hmin

/-- C5 witness: decrementing from 0 yields -1 persisted as `"-1"`. -/
theorem decrement_checked_witness :
    isI64 (⟨"0", 0, true⟩ : FileCounter).count ∧
    (⟨"0", 0, true⟩ : FileCounter).count = 0 ∧
    (decrement ⟨"0", 0, true⟩).1.count = -1 ∧
    (decrement ⟨"0", 0, true⟩).1.content = "-1" ∧
    (decrement ⟨"0", 0, true⟩).2.1 = false := by
  refine ⟨by decide, by decide, ?_⟩
  exact (decrement_checked ⟨"0", 0, true⟩ (by decide)).1 (by decide)

/-- C8: the keystroke choice reader returns the mapped value of the first
key event that is a key of the mapping; a key event not in the mapping is
silently ignored (the reader re-renders and waits on the remaining events);
and it never returns a value that is not in the mapping. -/
theorem choice_reader_spec {T : Type} (prompt : String) (m : List (KeyEvent × T)) :
    (∀ (k : KeyEvent) (rest : List Event) (v : T), choiceMapGet m k = some v →
        get_character_choice prompt m (Event.Key k :: rest) = some v) ∧
    (∀ (k : KeyEvent) (rest : List Event), choiceMapGet m k = none →
        get_character_choice prompt m (Event.Key k :: rest) =
          get_character_choice prompt m rest) ∧
    (∀ (evs : List Event) (v : T), get_character_choice prompt m evs = some v →
        ∃ k, choiceMapGet m k = some v) := by
  refine ⟨?_, ?_, ?_⟩
  · intro k rest v hk
    simp [get_character_choice, hk]
  · intro k rest hk
    simp [get_character_choice, hk]
  · intro evs
    induction evs with
    | nil =>
      intro v hv
      simp [get_character_choice] at hv
    | cons e rest ih =>
      intro v hv
      cases e with
      | Key k =>
        cases hk : choiceMapGet m k with
        | some w =>
          refine ⟨k, ?_⟩
          rw [hk]
          simp only [get_character_choice, hk] at hv
          exact hv
        | none =>
          exact ih v (by simpa [get_character_choice, hk] using hv)
      | other n =>
        exact ih v (by simpa [get_character_choice] using hv)

/-- C8 witness: pressing y at the overwrite prompt returns its mapped
value. -/
theorem choice_reader_spec_witness :
    choiceMapGet overwriteChoiceMap (key 'y') = some 'y' ∧
    get_character_choice overwritePrompt overwriteChoiceMap
      [Event.Key (key 'y')] = some 'y' :=
  ⟨by decide,
    (choice_reader_spec overwritePrompt overwriteChoiceMap).1 (key 'y') [] 'y' (by decide)⟩

end Counter
